import Mathlib

/-!
Shallow embedding of `postgresql_audit/base.py` from thulasi-ram/postgresql-audit:
the activity-log data model (`ActivityBase`), the snapshot merge
(`ActivityBase.data`), identity correlation (`build_condition_for_obj`),
point-in-time reconstruction (`get_last_transaction_id_query`, `revert`,
`resurrect`) and transaction attribution (`set_activity_values`,
`convert_callables`).

The JSONB payloads and Python dicts are embedded as association lists in
insertion order; SQL queries over the activity table are embedded as list
operations over the stored records, with SQL three-valued comparison made
explicit where NULLs can arise.  Timestamps and transaction ids are embedded
as integers.
-/

/-- A JSON scalar value as stored in the JSONB `old_data` / `changed_data`
columns and as held in a live entity's mapped attributes. -/
inductive JValue where
  | jnull
  | jbool (b : Bool)
  | jnum (n : Int)
  | jstr (s : String)
deriving DecidableEq

/-- A JSON object / Python dict: an association list of fields in insertion
order (CPython dicts preserve insertion order). -/
abbrev Data := List (String × JValue)

/-- Dict lookup: the first entry carrying the key (a real dict has at most
one). -/
def lookup (d : Data) (k : String) : Option JValue :=
  match d with
  | [] => none
  | kv :: rest => if kv.1 = k then some kv.2 else lookup rest k

/-- Left-biased choice on optional values, used to state lookup laws. -/
def firstSome (a b : Option JValue) : Option JValue :=
  match a with
  | some v => some v
  | none => b

/-- CPython `dict.update` as performed by `ActivityBase.data`
(`data = self.old_data.copy(); data.update(self.changed_data)`): keys of
`old` keep their position with values overridden by `changed` where present,
and keys of `changed` absent from `old` are appended in order. -/
def merge (old changed : Data) : Data :=
  old.map (fun kv => (kv.1, (lookup changed kv.1).getD kv.2)) ++
    changed.filter (fun kv => (lookup old kv.1).isNone)

/-- The keys of a dict, in order. -/
def keys (d : Data) : List String := d.map Prod.fst

/-- Well-formedness of an embedded dict: no duplicate keys (always true of
real Python dicts and JSONB objects). -/
def nodupKeys (d : Data) : Prop := (keys d).Nodup

instance nodupKeysDecidable (d : Data) : Decidable (nodupKeys d) :=
  inferInstanceAs (Decidable (keys d).Nodup)

/-- The record type backing the `activity` table (`activity_base` /
`ActivityBase` columns, plus the actor/metadata columns added by
`assign_actor` and written by transaction attribution, collected in
`attrs`). -/
structure ActivityRecord where
  id : Int
  schema_name : Option String
  table_name : String
  relid : Int
  issued_at : Int
  transaction_id : Int
  client_addr : Option String
  verb : String
  target_id : Option String
  old_data : Option Data
  changed_data : Option Data
  attrs : Data
deriving DecidableEq

/-- `ActivityBase.data`: `data = self.old_data.copy() if self.old_data else {}`
(Python truthiness: both `None` and the empty dict give `{}`), then
`if self.changed_data: data.update(self.changed_data)`.  The SQL-side hybrid
expression `jsonb_merge(old_data, changed_data)` computes the same merged
object. -/
def ActivityRecord.data (r : ActivityRecord) : Data :=
  let d := match r.old_data with
    | some od => if od.isEmpty then [] else od
    | none => []
  match r.changed_data with
  | some cd => if cd.isEmpty then d else merge d cd
  | none => d

/-- A live (session-attached) ORM entity: its table name (`__tablename__`)
and its mapped attribute values. -/
structure LiveObj where
  tablename : String
  fields : Data
deriving DecidableEq

/-- Postgres text rendering of a JSONB scalar, as produced by `->>` /
`.astext`. -/
def astext : JValue → String
  | JValue.jnull => "null"
  | JValue.jbool true => "true"
  | JValue.jbool false => "false"
  | JValue.jnum n => toString n
  | JValue.jstr s => s

/-- Python `str()` of an attribute value (`str(getattr(obj, c.name))`). -/
def pyStr : JValue → String
  | JValue.jnull => "None"
  | JValue.jbool true => "True"
  | JValue.jbool false => "False"
  | JValue.jnum n => toString n
  | JValue.jstr s => s

/-- `data[k].astext` (Postgres `->>`): SQL NULL when the key is absent or the
JSON value is null. -/
def jsonbAstext (d : Data) (k : String) : Option String :=
  match lookup d k with
  | some JValue.jnull => none
  | some v => some (astext v)
  | none => none

/-- SQL three-valued `=` between a possibly-NULL text and a text literal,
used as a row filter (NULL compares as not-true). -/
def sqlEqText (a : Option String) (b : String) : Bool :=
  match a with
  | some s => s == b
  | none => false

/-- `str(getattr(obj, name))`: an unset mapped attribute reads as `None`,
whose `str()` is `"None"`. -/
def getattrStr (obj : LiveObj) (k : String) : String :=
  pyStr ((lookup obj.fields k).getD JValue.jnull)

/-- `VersioningManager.build_condition_for_obj` as a predicate on stored
activity rows: `table_name == obj.__tablename__` AND, for each primary-key
column `c`, `data[c.name].astext == str(getattr(obj, c.name))`.  `pks` is the
entity type's declared primary-key column-name list, in order
(`get_primary_keys(obj)`). -/
def build_condition_for_obj (pks : List String) (obj : LiveObj)
    (r : ActivityRecord) : Bool :=
  r.table_name == obj.tablename &&
    pks.all (fun c => sqlEqText (jsonbAstext r.data c) (getattrStr obj c))

/-- SQL `max()` aggregate over a column: NULL on the empty set. -/
def listMax : List Int → Option Int
  | [] => none
  | x :: xs =>
    match listMax xs with
    | none => some x
    | some m => some (max x m)

/-- `VersioningManager.get_last_transaction_id_query`, executed against the
stored records: `SELECT max(transaction_id) WHERE condition`, where the
condition is `build_condition_for_obj` strengthened with
`issued_at < time` when a time is given (`if time:`). -/
def get_last_transaction_id (records : List ActivityRecord) (pks : List String)
    (obj : LiveObj) (time : Option Int) : Option Int :=
  listMax ((records.filter (fun r =>
    build_condition_for_obj pks obj r &&
      match time with
      | some t => decide (r.issued_at < t)
      | none => true)).map (fun r => r.transaction_id))

/-- The rows produced by `revert`'s SELECT: activity rows whose
`transaction_id` equals the scalar subquery's value (SQL `= NULL` matches no
row when the subquery is empty) and which satisfy the identity condition. -/
def revert_query (records : List ActivityRecord) (pks : List String)
    (obj : LiveObj) (time : Option Int) : List ActivityRecord :=
  records.filter (fun r =>
    (match get_last_transaction_id records pks obj time with
      | some t => r.transaction_id == t
      | none => false) &&
      build_condition_for_obj pks obj r)

/-- Python `setattr` on a mapped entity, viewed on its attribute dict:
overwrite the key if present, else add it. -/
def setKey (d : Data) (k : String) (v : JValue) : Data :=
  if (lookup d k).isSome then
    d.map (fun kv => if kv.1 = k then (kv.1, v) else kv)
  else d ++ [(k, v)]

/-- `for key, value in data.items(): setattr(obj, key, value)`. -/
def applyItems (f : Data) (d : Data) : Data :=
  d.foldl (fun acc kv => setKey acc kv.1 kv.2) f

/-- `VersioningManager.revert(obj, time)`: fetch the snapshot of the row with
the last transaction id before `time` for this identity and assign each of
its fields onto the live entity.  `session.execute(query).scalar()` yields
the first row's `data` or `None`; the `None` case makes
`data.items()` fail (no qualifying history), embedded as `none`. -/
def revert (records : List ActivityRecord) (pks : List String)
    (obj : LiveObj) (time : Option Int) : Option LiveObj :=
  match (revert_query records pks obj time).head? with
  | none => none
  | some r => some { obj with fields := applyItems obj.fields r.data }

/-- JSONB `=` between `d[k]` and `e[k]` (Postgres `->` extraction on both
sides): not-true when either key is absent (SQL NULL), JSON-value equality
otherwise (`'null'::jsonb = 'null'::jsonb` is true). -/
def jsonbEqAt (d e : Data) (k : String) : Bool :=
  match lookup d k, lookup e k with
  | some a, some b => a == b
  | _, _ => false

/-- The ON condition of `resurrect`'s self outer join: same `table_name`,
same merged `data` at every primary-key column, and the alias row strictly
later (`issued_at < alias.issued_at`). -/
def joinCond (pks : List String) (r r2 : ActivityRecord) : Bool :=
  r.table_name == r2.table_name &&
    pks.all (fun c => jsonbEqAt r.data r2.data c) &&
    decide (r.issued_at < r2.issued_at)

/-- `activity LEFT OUTER JOIN activity AS alias ON joinCond`: each left row
paired with every matching alias row, or with NULL when no alias row
matches. -/
def outerJoinRows (records : List ActivityRecord) (pks : List String) :
    List (ActivityRecord × Option ActivityRecord) :=
  records.flatMap (fun r =>
    let ms := records.filter (fun r2 => joinCond pks r r2)
    if ms.isEmpty then [(r, none)] else ms.map (fun r2 => (r, some r2)))

/-- `VersioningManager.resurrect`'s SELECT, parameterised by the reflected
predicate (`ExpressionReflector(self.activity_cls)(expr)`): select `data`
from the outer join where `alias.id IS NULL AND reflected AND
verb = 'delete'`; each returned row is staged as `model(**row[0])`. -/
def resurrect (records : List ActivityRecord) (pks : List String)
    (reflected : ActivityRecord → Bool) : List Data :=
  ((outerJoinRows records pks).filter (fun rr =>
      (rr.2.map (fun a => a.id)).isNone && reflected rr.1 &&
        (rr.1.verb == "delete"))).map (fun rr => rr.1.data)

/-- The database dialect behind the session (`session.bind.engine.dialect`);
`PGDialect` and everything else. -/
inductive Dialect where
  | postgresql
  | other (name : String)

/-- An entry of the per-transaction value map: a literal, or a zero-argument
producer evaluated at attribution time (`value() if callable(value) else
value`). -/
inductive TxnValue where
  | lit (v : JValue)
  | producer (f : Unit → JValue)

/-- `convert_callables`. -/
def convert_callables (values : List (String × TxnValue)) : Data :=
  values.map (fun kv => (kv.1,
    match kv.2 with
    | TxnValue.lit v => v
    | TxnValue.producer f => f ()))

/-- `timedelta(days=1)` in seconds: the attribution retention window. -/
def oneDay : Int := 86400

/-- The SET clause of the attribution UPDATE: write each named actor/metadata
column of the row. -/
def applyValues (values : Data) (r : ActivityRecord) : ActivityRecord :=
  { r with attrs := merge r.attrs values }

/-- Observable outcome of `set_activity_values`: the activity rows after the
call, whether a `RuntimeWarning` was emitted, and whether an UPDATE statement
was executed. -/
structure AttrState where
  rows : List ActivityRecord
  warned : Bool
  executed : Bool
deriving DecidableEq

/-- `VersioningManager.set_activity_values(session)`: on a non-PostgreSQL
dialect warn and return; otherwise evaluate the transaction value map and,
when it is non-empty, update every activity row with
`transaction_id = txid_current() AND issued_at > now() - timedelta(days=1)`. -/
def set_activity_values (dialect : Dialect)
    (txnValues : List (String × TxnValue)) (currentTxid : Int) (now : Int)
    (rows : List ActivityRecord) : AttrState :=
  match dialect with
  | Dialect.other _ => ⟨rows, true, false⟩
  | Dialect.postgresql =>
    if (convert_callables txnValues).isEmpty then ⟨rows, false, false⟩
    else
      ⟨rows.map (fun r =>
        if r.transaction_id == currentTxid &&
            decide (now - oneDay < r.issued_at)
        then applyValues (convert_callables txnValues) r else r),
        false, true⟩

/-- A concrete stored activity row (an insert of `article` row id 1 carrying
title "B"), used to instantiate hypotheses of the proved theorems. -/
def sampleRecord : ActivityRecord :=
  ⟨1, none, "article", 0, 1, 100, none, "insert", some "1", none,
    some [("id", JValue.jnum 1), ("title", JValue.jstr "B")], []⟩

/-- A concrete live entity of table `article` with id 1 and title "A". -/
def sampleObj : LiveObj :=
  ⟨"article", [("id", JValue.jnum 1), ("title", JValue.jstr "A")]⟩

/-- `sampleObj` after reverting to `sampleRecord`'s snapshot. -/
def sampleReverted : LiveObj :=
  ⟨"article", [("id", JValue.jnum 1), ("title", JValue.jstr "B")]⟩

theorem lookup_append (l1 l2 : Data) (k : String) :
    lookup (l1 ++ l2) k = firstSome (lookup l1 k) (lookup l2 k) := by
  induction l1 with
  | nil => simp [lookup, firstSome]
  | cons kv rest ih =>
    by_cases h : kv.1 = k <;> simp [lookup, h, ih, firstSome]

theorem lookup_mapOverride (d e : Data) (k : String) :
    lookup (d.map (fun kv => (kv.1, (lookup e kv.1).getD kv.2))) k
      = (lookup d k).map (fun v => (lookup e k).getD v) := by
  induction d with
  | nil => simp [lookup]
  | cons kv rest ih =>
    by_cases h : kv.1 = k
    · subst h
      simp [lookup, ih]
    · simp [lookup, h, ih]

theorem lookup_filter_isNone (d e : Data) (k : String) :
    lookup (e.filter (fun kv => (lookup d kv.1).isNone)) k
      = if (lookup d k).isNone then lookup e k else none := by
  induction e with
  | nil => simp [lookup]
  | cons kv rest ih =>
    by_cases h : kv.1 = k
    · subst h
      cases hd : lookup d kv.1 <;>
        simp [List.filter, lookup, hd, ih]
    · cases hkv : (lookup d kv.1).isNone <;>
        simp [List.filter, hkv, lookup, h, ih]

/-- The fundamental lookup law of `merge`: the changed side wins, key by
key. -/
theorem lookup_merge (old changed : Data) (k : String) :
    lookup (merge old changed) k
      = firstSome (lookup changed k) (lookup old k) := by
  unfold merge
  rw [lookup_append, lookup_mapOverride, lookup_filter_isNone]
  cases ho : lookup old k <;> cases hc : lookup changed k <;>
    simp [firstSome]

theorem merge_nil_right (old : Data) : merge old [] = old := by
  unfold merge
  simp [lookup]

theorem merge_nil_left (changed : Data) : merge [] changed = changed := by
  unfold merge
  simp [lookup]

/-- C5: merge(old, changed) contains every key of old with every key of
changed overwriting the corresponding entry; merge(old, {}) == old and
merge({}, changed) == changed. -/
theorem merge_overwrite_and_identities (old changed : Data) :
    (∀ k, lookup (merge old changed) k
        = firstSome (lookup changed k) (lookup old k)) ∧
      merge old [] = old ∧ merge [] changed = changed :=
  ⟨fun k => lookup_merge old changed k, merge_nil_right old,
    merge_nil_left changed⟩

theorem foldl_merge_chunks (init : Data) (chunks : List (List Data)) :
    List.foldl (fun acc chunk => List.foldl merge acc chunk) init chunks
      = List.foldl merge init chunks.flatten := by
  induction chunks generalizing init with
  | nil => rfl
  | cons c cs ih => simp [List.flatten, List.foldl_append, ih]

/-- C6: merge is associative up to dict equality (Python `==` on dicts, i.e.
agreement of lookups at every key), and folding merge left-to-right over a
chronological diff sequence is insensitive to how the sequence is chunked as
long as relative order is preserved. -/
theorem merge_assoc_and_fold_chunking (a b c : Data) :
    (∀ k, lookup (merge (merge a b) c) k
        = lookup (merge a (merge b c)) k) ∧
      ∀ (init : Data) (chunks : List (List Data)),
        List.foldl (fun acc chunk => List.foldl merge acc chunk) init chunks
          = List.foldl merge init chunks.flatten := by
  refine ⟨fun k => ?_, fun init chunks => foldl_merge_chunks init chunks⟩
  rw [lookup_merge, lookup_merge, lookup_merge, lookup_merge]
  cases lookup a k <;> cases lookup b k <;> cases lookup c k <;>
    simp [firstSome]

/-- C10: the derived `data` snapshot is always a mapping, never absent: with
both payload columns NULL it is the empty mapping, and with only `old_data`
NULL it equals `changed_data`. -/
theorem data_total_of_absent_payloads (r0 : ActivityRecord) (c : Data) :
    ({ r0 with old_data := none, changed_data := none }
        : ActivityRecord).data = [] ∧
      ({ r0 with old_data := none, changed_data := some c }
        : ActivityRecord).data = c := by
  constructor
  · rfl
  · show ActivityRecord.data _ = c
    unfold ActivityRecord.data
    cases hc : c.isEmpty
    · simp [hc, merge_nil_left]
    · simp [hc, List.isEmpty_iff.mp hc]

theorem lookup_eq_none_iff (d : Data) (k : String) :
    lookup d k = none ↔ k ∉ keys d := by
  induction d with
  | nil => simp [lookup, keys]
  | cons kv rest ih =>
    by_cases h : kv.1 = k
    · simp [lookup, keys, h]
    · simp [lookup, keys, h, ih]
      exact fun _ hk => h hk.symm

theorem lookup_isSome_iff (d : Data) (k : String) :
    (lookup d k).isSome = true ↔ k ∈ keys d := by
  induction d with
  | nil => simp [lookup, keys]
  | cons kv rest ih =>
    by_cases h : kv.1 = k
    · simp [lookup, keys, h]
    · simp [lookup, keys, h, ih]
      exact fun hk => absurd hk.symm h

theorem lookup_mapSet (d : Data) (k : String) (v : JValue) (k2 : String) :
    lookup (d.map (fun kv => if kv.1 = k then (kv.1, v) else kv)) k2
      = if k2 = k then (lookup d k).map (fun _ => v) else lookup d k2 := by
  induction d with
  | nil => simp [lookup]
  | cons kv rest ih =>
    by_cases h1 : kv.1 = k <;> by_cases h2 : kv.1 = k2 <;>
      by_cases h3 : k2 = k <;>
      simp [lookup, h1, h2, h3, ih] <;> simp_all

theorem lookup_setKey (d : Data) (k : String) (v : JValue) (k2 : String) :
    lookup (setKey d k v) k2 = if k2 = k then some v else lookup d k2 := by
  unfold setKey
  cases hs : lookup d k with
  | some w =>
    simp only [hs, Option.isSome_some, if_true]
    rw [lookup_mapSet]
    by_cases h3 : k2 = k <;> simp [h3, hs]
  | none =>
    simp only [hs, Option.isSome_none, Bool.false_eq_true, if_false]
    rw [lookup_append]
    by_cases h3 : k2 = k
    · subst h3
      simp [hs, firstSome, lookup]
    · have hne : ¬k = k2 := fun hk => h3 hk.symm
      have : lookup [(k, v)] k2 = none := by simp [lookup, hne]
      rw [this]
      cases lookup d k2 <;> simp [h3, firstSome]

theorem lookup_applyItems (d : Data) (f : Data) (hd : nodupKeys d)
    (k : String) :
    lookup (applyItems f d) k = firstSome (lookup d k) (lookup f k) := by
  induction d generalizing f with
  | nil => simp [applyItems, lookup, firstSome]
  | cons kv rest ih =>
    have hcons := List.nodup_cons.mp hd
    show lookup (applyItems (setKey f kv.1 kv.2) rest) k = _
    rw [ih _ hcons.2]
    by_cases h : kv.1 = k
    · subst h
      have hnone : lookup rest kv.1 = none :=
        (lookup_eq_none_iff rest kv.1).mpr hcons.1
      simp [hnone, lookup_setKey, lookup, firstSome]
    · rw [lookup_setKey, if_neg (fun hk => h hk.symm)]
      simp [lookup, h]

theorem listMax_eq_none_iff (l : List Int) : listMax l = none ↔ l = [] := by
  cases l with
  | nil => simp [listMax]
  | cons a l =>
    simp only [listMax]
    cases listMax l <;> simp

theorem listMax_le (l : List Int) (m : Int) (h : listMax l = some m) :
    ∀ x ∈ l, x ≤ m := by
  induction l generalizing m with
  | nil => simp [listMax] at h
  | cons a l ih =>
    intro x hx
    unfold listMax at h
    cases hl : listMax l with
    | none =>
      rw [hl] at h
      injection h with h
      subst h
      rcases List.mem_cons.mp hx with rfl | hx2
      · exact le_refl x
      · rw [(listMax_eq_none_iff l).mp hl] at hx2
        simp at hx2
    | some m2 =>
      rw [hl] at h
      injection h with h
      subst h
      rcases List.mem_cons.mp hx with rfl | hx2
      · exact le_max_left _ _
      · exact le_trans (ih m2 hl x hx2) (le_max_right _ _)

theorem listMax_mem (l : List Int) (m : Int) (h : listMax l = some m) :
    m ∈ l := by
  induction l generalizing m with
  | nil => simp [listMax] at h
  | cons a l ih =>
    unfold listMax at h
    cases hl : listMax l with
    | none =>
      rw [hl] at h
      injection h with h
      subst h
      exact List.mem_cons_self _ _
    | some m2 =>
      rw [hl] at h
      injection h with h
      subst h
      rcases max_choice a m2 with hm | hm <;> rw [hm]
      · exact List.mem_cons_self _ _
      · exact List.mem_cons_of_mem _ (ih m2 hl)

theorem keys_append (l1 l2 : Data) : keys (l1 ++ l2) = keys l1 ++ keys l2 :=
  List.map_append _ _ _

theorem keys_mapOverride (d e : Data) :
    keys (d.map (fun kv => (kv.1, (lookup e kv.1).getD kv.2))) = keys d := by
  simp only [keys, List.map_map]
  rfl

theorem nodupKeys_merge (d e : Data) (hd : nodupKeys d) (he : nodupKeys e) :
    nodupKeys (merge d e) := by
  unfold merge nodupKeys
  rw [keys_append, keys_mapOverride]
  rw [List.nodup_append]
  refine ⟨hd, ?_, ?_⟩
  · exact he.sublist (List.Sublist.map Prod.fst (List.filter_sublist e))
  · intro x hx1 hx2
    rcases List.mem_map.mp hx2 with ⟨kv, hkv, hfst⟩
    have hp := (List.mem_filter.mp hkv).2
    have : lookup d kv.1 = none := by
      cases hlk : lookup d kv.1
      · rfl
      · rw [hlk] at hp
        simp at hp
    rw [hfst] at this
    exact ((lookup_eq_none_iff d x).mp this) hx1

theorem nodupKeys_nil : nodupKeys [] := List.nodup_nil

theorem nodupKeys_data (r : ActivityRecord)
    (ho : nodupKeys (r.old_data.getD []))
    (hc : nodupKeys (r.changed_data.getD [])) :
    nodupKeys r.data := by
  unfold ActivityRecord.data
  cases hod : r.old_data with
  | none =>
    cases hcd : r.changed_data with
    | none => exact nodupKeys_nil
    | some cd =>
      rw [hcd] at hc
      simp only [Option.getD_some] at hc
      cases hce : cd.isEmpty
      · simpa [hce] using nodupKeys_merge [] cd nodupKeys_nil hc
      · simp only [hce, if_true]
        exact nodupKeys_nil
  | some od =>
    rw [hod] at ho
    simp only [Option.getD_some] at ho
    cases hcd : r.changed_data with
    | none =>
      cases hoe : od.isEmpty
      · simpa [hoe] using ho
      · simp only [hoe, if_true]
        exact nodupKeys_nil
    | some cd =>
      rw [hcd] at hc
      simp only [Option.getD_some] at hc
      cases hoe : od.isEmpty <;> cases hce : cd.isEmpty
      · simpa [hoe, hce] using nodupKeys_merge od cd ho hc
      · simpa [hoe, hce] using ho
      · simpa [hoe, hce] using nodupKeys_merge [] cd nodupKeys_nil hc
      · simpa [hoe, hce] using nodupKeys_nil

/-- C1: a successful `revert(obj, asOf)` finds, among the activity rows that
satisfy the entity's identity condition (table name plus stringified
primary-key field values), the greatest transaction id whose `issued_at` is
strictly before `asOf`, and assigns onto the live entity every field present
in the merged snapshot (old_data overwritten by changed_data) of the row at
that transaction; fields absent from the snapshot are left unchanged. -/
theorem revert_applies_snapshot
    (records : List ActivityRecord) (pks : List String) (obj : LiveObj)
    (t : Int) (obj2 : LiveObj)
    (hwf : ∀ r ∈ records, nodupKeys (r.old_data.getD []) ∧
      nodupKeys (r.changed_data.getD []))
    (h : revert records pks obj (some t) = some obj2) :
    ∃ r, r ∈ records ∧ build_condition_for_obj pks obj r = true ∧
      get_last_transaction_id records pks obj (some t)
        = some r.transaction_id ∧
      (∀ r2 ∈ records, build_condition_for_obj pks obj r2 = true →
        r2.issued_at < t → r2.transaction_id ≤ r.transaction_id) ∧
      (∀ k v, lookup r.data k = some v → lookup obj2.fields k = some v) ∧
      (∀ k, lookup r.data k = none →
        lookup obj2.fields k = lookup obj.fields k) ∧
      obj2.tablename = obj.tablename := by
  unfold revert at h
  cases hq : (revert_query records pks obj (some t)).head? with
  | none =>
    rw [hq] at h
    simp at h
  | some r =>
    rw [hq] at h
    injection h with h
    have hrmem : r ∈ revert_query records pks obj (some t) := by
      cases hl : revert_query records pks obj (some t) with
      | nil =>
        rw [hl] at hq
        cases hq
      | cons a tl =>
        rw [hl] at hq
        simp only [List.head?_cons, Option.some.injEq] at hq
        cases hq
        exact List.mem_cons_self _ _
    obtain ⟨hrrec, hpred⟩ := List.mem_filter.mp hrmem
    cases hgt : get_last_transaction_id records pks obj (some t) with
    | none =>
      rw [hgt] at hpred
      simp at hpred
    | some m =>
      rw [hgt] at hpred
      simp only [Bool.and_eq_true, beq_iff_eq] at hpred
      obtain ⟨hrtxn, hrcond⟩ := hpred
      have hnd : nodupKeys r.data :=
        nodupKeys_data r (hwf r hrrec).1 (hwf r hrrec).2
      have hfields : obj2.fields = applyItems obj.fields r.data := by
        rw [← h]
      refine ⟨r, hrrec, hrcond, ?_, ?_, ?_, ?_, ?_⟩
      · rw [hrtxn]
      · intro r2 hr2 hc2 ht2
        rw [hrtxn]
        unfold get_last_transaction_id at hgt
        refine listMax_le _ m hgt r2.transaction_id ?_
        refine List.mem_map.mpr ⟨r2, ?_, rfl⟩
        refine List.mem_filter.mpr ⟨hr2, ?_⟩
        simp [hc2, ht2]
      · intro k v hkv
        rw [hfields, lookup_applyItems _ _ hnd, hkv]
        rfl
      · intro k hk
        rw [hfields, lookup_applyItems _ _ hnd, hk]
        rfl
      · rw [← h]

theorem revert_applies_snapshot_witness :
    ∃ r, r ∈ [sampleRecord] ∧
      build_condition_for_obj ["id"] sampleObj r = true ∧
      get_last_transaction_id [sampleRecord] ["id"] sampleObj (some 5)
        = some r.transaction_id ∧
      (∀ r2 ∈ [sampleRecord],
        build_condition_for_obj ["id"] sampleObj r2 = true →
        r2.issued_at < 5 → r2.transaction_id ≤ r.transaction_id) ∧
      (∀ k v, lookup r.data k = some v →
        lookup sampleReverted.fields k = some v) ∧
      (∀ k, lookup r.data k = none →
        lookup sampleReverted.fields k = lookup sampleObj.fields k) ∧
      sampleReverted.tablename = sampleObj.tablename :=
  revert_applies_snapshot [sampleRecord] ["id"] sampleObj 5 sampleReverted
    (by decide) (by decide)

/-- C3: when no activity record of the entity's identity has `issued_at`
strictly before `asOf` (the max-transaction-id subquery is empty), `revert`
fails: the snapshot query returns no row and the call cannot complete
normally (`scalar()` is `None` and `data.items()` raises; the spec's
`NoHistoryError`), embedded as the `none` outcome. -/
theorem revert_no_history
    (records : List ActivityRecord) (pks : List String) (obj : LiveObj)
    (t : Int)
    (h : ∀ r ∈ records, build_condition_for_obj pks obj r = true →
      ¬(r.issued_at < t)) :
    revert records pks obj (some t) = none := by
  have hfil : (records.filter (fun r =>
      build_condition_for_obj pks obj r &&
        match (some t : Option Int) with
        | some t2 => decide (r.issued_at < t2)
        | none => true)) = [] := by
    rw [List.filter_eq_nil_iff]
    intro r hr
    simp only [Bool.and_eq_true, decide_eq_true_eq, not_and]
    exact fun hc hlt => h r hr hc hlt
  have hgt : get_last_transaction_id records pks obj (some t) = none := by
    unfold get_last_transaction_id
    rw [hfil]
    rfl
  unfold revert revert_query
  simp only [hgt]
  simp

theorem revert_no_history_witness :
    revert [sampleRecord] ["id"] sampleObj (some 0) = none :=
  revert_no_history [sampleRecord] ["id"] sampleObj 0 (by decide)

/-- C4 counterexample: for an entity type that declares no primary key the
correlation condition is computed without any error and matches on table name
alone — an activity record whose payload identifies a different row (id 2)
still satisfies the condition built for the live row with id 1, and no
`ImproperlyConfigured` failure occurs anywhere in `build_condition_for_obj`. -/
theorem build_condition_no_pk_counterexample :
    build_condition_for_obj [] ⟨"article", [("id", JValue.jnum 1)]⟩
      ⟨2, none, "article", 0, 2, 101, none, "insert", some "2", none,
        some [("id", JValue.jnum 2)], []⟩ = true := by decide

/-- C4 amended: for an entity type with no declared primary key,
`build_condition_for_obj` raises no error and degenerates to a condition on
the table name alone. -/
theorem build_condition_no_pk_table_name_only (obj : LiveObj)
    (r : ActivityRecord) :
    build_condition_for_obj [] obj r = (r.table_name == obj.tablename) := by
  simp [build_condition_for_obj]

theorem joinCond_eq_true_iff (pks : List String) (r r2 : ActivityRecord) :
    joinCond pks r r2 = true ↔
      r.table_name = r2.table_name ∧
        (∀ c ∈ pks, jsonbEqAt r.data r2.data c = true) ∧
        r.issued_at < r2.issued_at := by
  unfold joinCond
  simp [Bool.and_eq_true, beq_iff_eq, List.all_eq_true, decide_eq_true_eq,
    and_assoc]

theorem filter_joinCond_eq_nil_iff (records : List ActivityRecord)
    (pks : List String) (r : ActivityRecord) :
    records.filter (fun r2 => joinCond pks r r2) = [] ↔
      ∀ r2 ∈ records, ¬(r.table_name = r2.table_name ∧
        (∀ c ∈ pks, jsonbEqAt r.data r2.data c = true) ∧
        r.issued_at < r2.issued_at) := by
  rw [List.filter_eq_nil_iff]
  constructor <;> intro hh r2 hr2
  · exact fun hc => hh r2 hr2 ((joinCond_eq_true_iff pks r r2).mpr hc)
  · exact fun hc => hh r2 hr2 ((joinCond_eq_true_iff pks r r2).mp hc)

theorem mem_outerJoinRows_none (records : List ActivityRecord)
    (pks : List String) (r : ActivityRecord) :
    (r, (none : Option ActivityRecord)) ∈ outerJoinRows records pks ↔
      r ∈ records ∧
        records.filter (fun r2 => joinCond pks r r2) = [] := by
  unfold outerJoinRows
  rw [List.mem_flatMap]
  constructor
  · rintro ⟨a, ha, hmem⟩
    simp only at hmem
    by_cases he : (records.filter (fun r2 => joinCond pks a r2)) = []
    · rw [he] at hmem
      simp only [List.isEmpty_nil, if_true, List.mem_singleton,
        Prod.mk.injEq] at hmem
      obtain ⟨heq, -⟩ := hmem
      subst heq
      exact ⟨ha, he⟩
    · rw [if_neg (by simpa [List.isEmpty_iff] using he)] at hmem
      rcases List.mem_map.mp hmem with ⟨r2, _, heq⟩
      cases heq
  · rintro ⟨hr, hfil⟩
    refine ⟨r, hr, ?_⟩
    simp only [hfil, List.isEmpty_nil, if_true, List.mem_singleton]

/-- C2: `resurrect` stages exactly the merged data (old_data overwritten by
changed_data) of those activity records whose verb is `delete`, which
satisfy the reflected predicate, and for which no activity record exists
with the same table name, the same merged primary-key values, and a strictly
later `issued_at`. -/
theorem resurrect_characterization (records : List ActivityRecord)
    (pks : List String) (reflected : ActivityRecord → Bool) (d : Data) :
    d ∈ resurrect records pks reflected ↔
      ∃ r, r ∈ records ∧ r.verb = "delete" ∧ reflected r = true ∧
        (∀ r2 ∈ records, ¬(r.table_name = r2.table_name ∧
          (∀ c ∈ pks, jsonbEqAt r.data r2.data c = true) ∧
          r.issued_at < r2.issued_at)) ∧
        d = r.data := by
  unfold resurrect
  rw [List.mem_map]
  constructor
  · rintro ⟨⟨r, o⟩, hmem, hdata⟩
    obtain ⟨hjoin, hflt⟩ := List.mem_filter.mp hmem
    simp only [Bool.and_eq_true] at hflt
    obtain ⟨⟨hnone, hrefl⟩, hverb⟩ := hflt
    have ho : o = none := by
      cases o
      · rfl
      · simp at hnone
    subst ho
    obtain ⟨hb1, hb2⟩ := (mem_outerJoinRows_none records pks r).mp hjoin
    refine ⟨r, hb1, by simpa using hverb, hrefl, ?_, hdata.symm⟩
    exact (filter_joinCond_eq_nil_iff records pks r).mp hb2
  · rintro ⟨r, hr, hverb, hrefl, hnolater, hdata⟩
    refine ⟨(r, none), ?_, hdata.symm⟩
    refine List.mem_filter.mpr ⟨?_, ?_⟩
    · exact (mem_outerJoinRows_none records pks r).mpr
        ⟨hr, (filter_joinCond_eq_nil_iff records pks r).mpr hnolater⟩
    · simp [hrefl, hverb]

/-- C7: the transaction-attribution UPDATE modifies only activity rows whose
`transaction_id` equals the current transaction's id and whose `issued_at`
lies within the last-day retention window; a row of a different transaction,
or older than the window, is left unchanged (and the row count is
preserved). -/
theorem set_activity_values_frame (txnValues : List (String × TxnValue))
    (txid now : Int) (rows : List ActivityRecord) (i : Nat)
    (r : ActivityRecord) (hi : rows[i]? = some r)
    (hcond : ¬(r.transaction_id = txid ∧ now - oneDay < r.issued_at)) :
    (set_activity_values Dialect.postgresql txnValues txid now
        rows).rows.length = rows.length ∧
      (set_activity_values Dialect.postgresql txnValues txid now
        rows).rows[i]? = some r := by
  have hcf : (r.transaction_id == txid &&
      decide (now - oneDay < r.issued_at)) = false := by
    by_cases h1 : r.transaction_id = txid
    · have h2 : ¬(now - oneDay < r.issued_at) := fun hb => hcond ⟨h1, hb⟩
      simp [h1, h2]
    · simp [h1]
  unfold set_activity_values
  cases he : (convert_callables txnValues).isEmpty
  · simp only [he, Bool.false_eq_true, if_false]
    refine ⟨List.length_map _ _, ?_⟩
    rw [List.getElem?_map, hi, Option.map_some']
    rw [hcf]
    rfl
  · exact ⟨by simp, by simp [hi]⟩

theorem set_activity_values_frame_witness :
    (set_activity_values Dialect.postgresql
        [("actor_id", TxnValue.lit (JValue.jstr "user-1"))] 2 0
        [sampleRecord]).rows.length = [sampleRecord].length ∧
      (set_activity_values Dialect.postgresql
        [("actor_id", TxnValue.lit (JValue.jstr "user-1"))] 2 0
        [sampleRecord]).rows[0]? = some sampleRecord :=
  set_activity_values_frame
    [("actor_id", TxnValue.lit (JValue.jstr "user-1"))] 2 0
    [sampleRecord] 0 sampleRecord (by decide) (by decide)

/-- C8: on a session whose backend is not a PostgreSQL dialect, transaction
attribution emits the `RuntimeWarning` and returns without executing any
UPDATE and without raising: rows are untouched (`set_activity_values` is a
total function, so no error is possible). -/
theorem set_activity_values_non_postgresql (name : String)
    (txnValues : List (String × TxnValue)) (txid now : Int)
    (rows : List ActivityRecord) :
    set_activity_values (Dialect.other name) txnValues txid now rows
      = ⟨rows, true, false⟩ := rfl

/-- C9: when the per-transaction value map is empty after evaluating any
zero-argument producers, attribution executes no UPDATE at all: no warning,
no statement, rows unchanged. -/
theorem set_activity_values_empty_map (txnValues : List (String × TxnValue))
    (txid now : Int) (rows : List ActivityRecord)
    (h : convert_callables txnValues = []) :
    set_activity_values Dialect.postgresql txnValues txid now rows
      = ⟨rows, false, false⟩ := by
  unfold set_activity_values
  rw [h]
  rfl

theorem set_activity_values_empty_map_witness :
    set_activity_values Dialect.postgresql [] 3 50 [sampleRecord]
      = ⟨[sampleRecord], false, false⟩ :=
  set_activity_values_empty_map [] 3 50 [sampleRecord] rfl
